import Mathlib

/-
Shallow embedding of the ome-zarr-models core for verification.

The embedding follows the source files:
  src/ome_zarr_models/v04/image.py        (Image, _check_arrays_compatible, from_zarr, labels)
  src/ome_zarr_models/v04/image_label.py  (ImageLabel, _parse_colors, _parse_imagelabel, _duplicates)
  src/ome_zarr_models/v04/well_types.py   (WellImage, WellMeta.get_acquisition_paths)

The hierarchical Zarr store is modelled as the external store adapter of the
design: a finite map from exact paths to nodes, where a node is either an
array (we record its shape, the only field the core inspects) or a group
with named children.  `zarr.open_array` / `zarr.open_group` on a path become
a lookup in that map.  Python dicts of group members become association
lists keyed by name.
-/

set_option maxRecDepth 8000

/-- Node of a Zarr hierarchy / of a pydantic-zarr member tree: either an
array spec (shape recorded) or a group spec with named children.  This plays
the role of both `ArraySpec | GroupSpec` and of nodes stored in a Zarr store. -/
inductive Spec where
  | array (shape : List Nat)
  | group (members : List (String × Spec))

/-- Store model: a finite map from exact storage paths to nodes.  This is the
external store adapter of the design: it resolves one exact path to an array,
a group, or nothing, without listing children. -/
abbrev Store := List (String × Spec)

/-- String with all leading slash characters removed, the embedding of
Python's `s.lstrip("/")`. -/
def lstripSlash (s : String) : String :=
  String.mk (s.data.dropWhile (fun c => c = '/'))

mutual

/-- Flattening of one spec rooted at key `pre`, the embedding of
pydantic-zarr's `to_flat` on a single member: an array contributes its own
entry, a group contributes its own entry followed by its flattened children
keyed `pre ++ "/" ++ name`. -/
def toFlatSpec (pre : String) : Spec → List (String × Spec)
  | .array shape => [(pre, .array shape)]
  | .group ms => (pre, .group ms) :: toFlatList pre ms

/-- Flattening of a member list under prefix `pre`. -/
def toFlatList (pre : String) : List (String × Spec) → List (String × Spec)
  | [] => []
  | (n, s) :: rest => toFlatSpec (pre ++ "/" ++ n) s ++ toFlatList pre rest

end

/-- Flattened member tree of a group, keyed by "/"-prefixed paths, the
embedding of `GroupSpec.to_flat` as used by `_check_arrays_compatible`
(`flat_self["/" + dataset.path.lstrip("/")]`). -/
def toFlat (members : List (String × Spec)) : List (String × Spec) :=
  toFlatList "" members

/-- Modelled from the spec: one dimension descriptor of a multiscale
(`Axis` lives in `v04/multiscales.py`, which is not among the sources; the
claims under verification only ever use the number of axes). -/
structure Axis where
  name : String
  type : Option String
  unit : Option String

/-- Modelled from the spec: one resolution level of a multiscale, carrying a
store-local relative path (`Dataset` lives in `v04/multiscales.py`, which is
not among the sources; of its fields only `path` is consulted by the image
code under verification, so the coordinate transformations are not carried). -/
structure Dataset where
  path : String

/-- Modelled from the spec: a multiscale descriptor pairing an axis sequence
with its ordered resolution levels (`Multiscale` lives in
`v04/multiscales.py`, which is not among the sources; the image code under
verification uses exactly `multiscale.axes` (its length) and
`multiscale.datasets`). -/
structure Multiscale where
  axes : List Axis
  datasets : List Dataset

/-- Attributes of an OME-zarr image: the `multiscales` metadata, as in
`ImageAttrs` of `v04/image.py` (the optional `omero` block is carried by the
source but never consulted by the code under verification). -/
structure ImageAttrs where
  multiscales : List Multiscale

/-- An OME-zarr image group: attributes plus a member tree, as in
`Image(GroupSpec[ImageAttrs, ArraySpec | GroupSpec])` of `v04/image.py`. -/
structure Image where
  attributes : ImageAttrs
  members : List (String × Spec)

/-- Errors raised by the image code of `v04/image.py`.  Each constructor
stands for one distinct `ValueError` message (or propagated zarr error) and
carries exactly the data interpolated into that message. -/
inductive ImgErr where
  | zarrMissingArray (arrayPath : String)
  | zarrGroupFound (arrayPath : String)
  | labelsContainsArray
  | missingArrayInGroup (datasetPath : String)
  | nodeIsGroup (datasetPath : String)
  | rankMismatch (datasetPath : String) (axisCount : Nat) (arrayRank : Nat)

/-- Check of one dataset entry inside `_check_arrays_compatible`: look up
`"/" + dataset.path.lstrip("/")` in the flattened member tree; a missing key
is the missing-array error, a group is the wrong-node-kind error, and an
array whose rank differs from the axis count is the rank-mismatch error. -/
def checkDataset (flat : List (String × Spec)) (ndim : Nat) (d : Dataset) :
    Except ImgErr Unit :=
  match List.lookup ("/" ++ lstripSlash d.path) flat with
  | none => .error (.missingArrayInGroup d.path)
  | some (.group _) => .error (.nodeIsGroup d.path)
  | some (.array shape) =>
      if shape.length ≠ ndim then .error (.rankMismatch d.path ndim shape.length)
      else .ok ()

/-- Inner loop of `_check_arrays_compatible` over the datasets of one
multiscale, stopping at the first failing dataset. -/
def checkDatasets (flat : List (String × Spec)) (ndim : Nat) :
    List Dataset → Except ImgErr Unit
  | [] => .ok ()
  | d :: rest => do
      checkDataset flat ndim d
      checkDatasets flat ndim rest

/-- Outer loop of `_check_arrays_compatible` over the multiscales. -/
def checkMultiscales (flat : List (String × Spec)) :
    List Multiscale → Except ImgErr Unit
  | [] => .ok ()
  | m :: rest => do
      checkDatasets flat m.axes.length m.datasets
      checkMultiscales flat rest

/-- Embedding of `_check_arrays_compatible` of `v04/image.py`: every array
referenced by the multiscales metadata must exist in the flattened member
tree, must not be a group, and must have rank equal to the axis count of its
owning multiscale; on success the image itself is returned. -/
def checkArraysCompatible (data : Image) : Except ImgErr Image :=
  match checkMultiscales (toFlat data.members) data.attributes.multiscales with
  | .error e => .error e
  | .ok () => .ok data

/-- Construction of an `Image` from attributes and members.  The pydantic
model validator `_check_arrays_compatible` is attached with `mode="after"`,
so it runs on every construction; a successfully constructed image is
exactly one that passed the check. -/
def mkImage (attrs : ImageAttrs) (members : List (String × Spec)) :
    Except ImgErr Image :=
  checkArraysCompatible ⟨attrs, members⟩

/-- Embedding of the `Image.labels` property: `None` when no member named
`labels` exists, otherwise the labels member (the source repackages its
attributes and members into a `Labels` model; we return the node itself). -/
def Image.labels (img : Image) : Option Spec :=
  List.lookup "labels" img.members

/-- Splitting of a character list at slash characters. -/
def splitChars : List Char → List (List Char)
  | [] => [[]]
  | c :: cs =>
      if c = '/' then [] :: splitChars cs
      else
        match splitChars cs with
        | [] => [[c]]
        | seg :: rest => (c :: seg) :: rest

/-- Non-empty "/"-separated segments of a path, as pydantic-zarr's
`from_flat` derives member names from flat keys. -/
def splitSegs (s : String) : List String :=
  ((splitChars s.data).map String.mk).filter (fun seg => seg ≠ "")

/-- Replacement (or appending) of the binding for `n` in an association
list, the embedding of Python dict assignment on a member mapping. -/
def setMember : List (String × Spec) → String → Spec → List (String × Spec)
  | [], n, v => [(n, v)]
  | (n', v') :: rest, n, v =>
      if n' = n then (n, v) :: rest else (n', v') :: setMember rest n v

/-- Insertion of a node at a segment path into a member tree, creating
implicit intermediate groups, as pydantic-zarr's `from_flat` nests flat
entries into a `GroupSpec` hierarchy. -/
def insertAt (members : List (String × Spec)) : List String → Spec → List (String × Spec)
  | [], _ => members
  | [n], v => setMember members n v
  | n :: seg :: rest, v =>
      let sub : List (String × Spec) :=
        match List.lookup n members with
        | some (.group ms) => ms
        | _ => []
      setMember members n (.group (insertAt sub (seg :: rest) v))

/-- Fold of `fromFlat` over the flat entries, threading the member tree
built so far. -/
def fromFlatAux (acc : List (String × Spec)) : List (String × Spec) → List (String × Spec)
  | [] => acc
  | (k, v) :: rest => fromFlatAux (insertAt acc (splitSegs k) v) rest

/-- Member tree built from a flat path-keyed mapping, the embedding of
`GroupSpec.from_flat(members_tree_flat).members` in `Image.from_zarr`. -/
def fromFlat (flat : List (String × Spec)) : List (String × Spec) :=
  fromFlatAux [] flat

/-- Resolution of one declared dataset in `Image.from_zarr`: the absolute
path is the root group's path joined with the dataset's path, and exactly
that path is opened as an array; an absent node is `ArrayNotFoundError`
(translated to the missing-array `ValueError`), a group is
`ContainsGroupError` (translated to the wrong-node-kind `ValueError`).  On
success the flat entry `("/" + dataset.path, array spec)` is produced. -/
def resolveDataset (store : Store) (rootPath : String) (d : Dataset) :
    Except ImgErr (String × Spec) :=
  match List.lookup (rootPath ++ "/" ++ d.path) store with
  | some (.array shape) => .ok ("/" ++ d.path, .array shape)
  | some (.group _) => .error (.zarrGroupFound (rootPath ++ "/" ++ d.path))
  | none => .error (.zarrMissingArray (rootPath ++ "/" ++ d.path))

/-- Resolution of the datasets of one multiscale, in declaration order,
stopping at the first failure. -/
def resolveDatasets (store : Store) (rootPath : String) :
    List Dataset → Except ImgErr (List (String × Spec))
  | [] => .ok []
  | d :: rest => do
      let e ← resolveDataset store rootPath d
      let es ← resolveDatasets store rootPath rest
      .ok (e :: es)

/-- Resolution of every multiscale's datasets, in declaration order. -/
def resolveMultiscales (store : Store) (rootPath : String) :
    List Multiscale → Except ImgErr (List (String × Spec))
  | [] => .ok []
  | m :: rest => do
      let es ← resolveDatasets store rootPath m.datasets
      let rs ← resolveMultiscales store rootPath rest
      .ok (es ++ rs)

/-- Labels lookup of `Image.from_zarr`: `zarr.open_group(store=group.store,
path="labels", mode="r")` opens the fixed store path `"labels"`.  A group
found there becomes the flat entry `"/labels"`; `GroupNotFoundError` (no
node at that path) is swallowed; an array at that path raises zarr's
`ContainsArrayError`, which the source does not catch, so it propagates. -/
def resolveLabels (store : Store) : Except ImgErr (List (String × Spec)) :=
  match List.lookup "labels" store with
  | some (.group ms) => .ok [("/labels", .group ms)]
  | some (.array _) => .error .labelsContainsArray
  | none => .ok []

/-- Embedding of `Image.from_zarr` of `v04/image.py`, starting from the
already-parsed `ImageAttrs` (the parse of the raw multiscales attributes is
delegated to `ImageAttrs.model_validate`): every declared dataset is opened
at the root path joined with the dataset path, the labels group is probed at
the fixed path `"labels"`, the flat entries are normalized into a member
tree, and the final `cls(**...)` construction re-runs the
`_check_arrays_compatible` model validator. -/
def fromZarr (store : Store) (rootPath : String) (attrs : ImageAttrs) :
    Except ImgErr Image := do
  let datasetEntries ← resolveMultiscales store rootPath attrs.multiscales
  let labelEntries ← resolveLabels store
  mkImage attrs (fromFlat (datasetEntries ++ labelEntries))

/-- Labels member the store offers at its fixed path `"labels"`: a group
there is taken, anything else yields no labels member. -/
def labelsMemberOf (store : Store) : Option Spec :=
  match List.lookup "labels" store with
  | some (.group ms) => some (.group ms)
  | _ => none

/-- RGBA value of `v04/image_label.py`: four integers, each in `0..255`
(the `Uint8` annotated type). -/
structure RGBA where
  r : Nat
  g : Nat
  b : Nat
  a : Nat

/-- A label value and RGBA, as `Color` of `v04/image_label.py`. -/
structure Color where
  label_value : Int
  rgba : Option RGBA

/-- A single property, as `Property` of `v04/image_label.py`: only the
label value is modelled. -/
structure Property where
  label_value : Int

/-- Source data for the labels, as `Source` of `v04/image_label.py`. -/
structure Source where
  image : Option String

/-- image-label metadata, as `ImageLabel` of `v04/image_label.py`. -/
structure ImageLabel where
  colors : Option (List Color)
  properties : Option (List Property)
  source : Option Source
  version : Option String

/-- Errors raised (or reported by pydantic) while validating an
`ImageLabel`; each constructor carries the data its message interpolates. -/
inductive LabelErr where
  | duplicateLabelValues (dupes : List Int)
  | inconsistentLabelValues (propertyValues : List Int) (colorValues : List Int)
  | missingField (name : String)
  | invalidVersion (got : String)

/-- First occurrences of the elements of a list, in encounter order, as the
key order of a `collections.Counter` built from the list. -/
def dedupFirstAux (seen : List Int) : List Int → List Int
  | [] => []
  | x :: xs =>
      if x ∈ seen then dedupFirstAux seen xs
      else x :: dedupFirstAux (x :: seen) xs

/-- Embedding of `_duplicates` of `v04/image_label.py` restricted to the
data its caller uses: the elements occurring more than once, in first
occurrence order (the source also carries the counts, but only the keys of
the returned dict reach the error message). -/
def duplicateValues (l : List Int) : List Int :=
  (dedupFirstAux [] l).filter (fun k => 1 < l.count k)

/-- Warning message issued by `_parse_colors` when the field is `None`. -/
def colorsNoneWarning : String :=
  "The field colors is None. colors should be a list of label descriptors."

/-- Embedding of `_parse_colors` of `v04/image_label.py`: a `None` colors
field warns (non-fatally) and passes through; a present colors field fails
when any label value is duplicated, the error reporting the duplicated
values; otherwise it passes through.  Warnings are returned alongside the
value. -/
def parseColors (colors : Option (List Color)) :
    Except LabelErr (Option (List Color) × List String) :=
  match colors with
  | none => .ok (none, [colorsNoneWarning])
  | some cs =>
      if 0 < (duplicateValues (cs.map (fun c => c.label_value))).length then
        .error (.duplicateLabelValues (duplicateValues (cs.map (fun c => c.label_value))))
      else .ok (some cs, [])

/-- Boolean equality of the sets of elements of two integer lists, as the
Python `set` equality used by `_parse_imagelabel`. -/
def setEqInt (a b : List Int) : Bool :=
  a.all (fun x => x ∈ b) && b.all (fun x => x ∈ a)

/-- Embedding of `_parse_imagelabel` of `v04/image_label.py`: when both
`colors` and `properties` are present, their sets of label values must be
equal, the failure reporting the property label values and the color label
values; when either is absent the check does not apply. -/
def parseImageLabel (model : ImageLabel) : Except LabelErr ImageLabel :=
  match model.colors, model.properties with
  | some cs, some ps =>
      let propLabelValues := ps.map (fun p => p.label_value)
      let colorLabelValues := cs.map (fun c => c.label_value)
      if setEqInt colorLabelValues propLabelValues then .ok model
      else .error (.inconsistentLabelValues propLabelValues colorLabelValues)
  | _, _ => .ok model

/-- Validation pipeline of an `ImageLabel` from field values: the `colors`
field validator `_parse_colors` runs first, then the model validator
`_parse_model` (`_parse_imagelabel`); accumulated warnings accompany the
validated model. -/
def mkImageLabel (colors : Option (List Color)) (properties : Option (List Property))
    (source : Option Source) (version : Option String) :
    Except LabelErr (ImageLabel × List String) :=
  match parseColors colors with
  | .error e => .error e
  | .ok (cs, warns) =>
      match parseImageLabel ⟨cs, properties, source, version⟩ with
      | .error e => .error e
      | .ok model => .ok (model, warns)

/-- Raw keyword arguments for constructing an `ImageLabel`, before pydantic
field validation: the outer `Option` is key presence, the inner `Option` is
an explicit `None` value versus a value. -/
structure RawImageLabel where
  colors : Option (Option (List Color))
  properties : Option (Option (List Property))
  source : Option (Option Source)
  version : Option (Option String)

/-- Field errors pydantic reports for the `version` field of `ImageLabel`:
the field is declared `Literal["0.4"] | None` with no default, so an absent
key is a missing-field error, while a supplied `None` or `"0.4"` passes and
any other string fails the literal check. -/
def versionFieldErrs (version : Option (Option String)) : List LabelErr :=
  match version with
  | none => [.missingField "version"]
  | some none => []
  | some (some v) => if v = "0.4" then [] else [.invalidVersion v]

/-- Embedding of pydantic validation of `ImageLabel` from raw keyword
arguments: fields with defaults (`colors`, `properties`, `source`) fall back
to `None` when their key is absent; the `version` field has no default, so
its key is required.  Field errors (from the `colors` validator and from the
`version` field) are collected into one validation error, and the model
validator runs only when every field validated. -/
def parseRawImageLabel (raw : RawImageLabel) :
    Except (List LabelErr) (ImageLabel × List String) :=
  match parseColors (raw.colors.getD none) with
  | .error e => .error (e :: versionFieldErrs raw.version)
  | .ok (cs, warns) =>
      match versionFieldErrs raw.version with
      | e :: rest => .error (e :: rest)
      | [] =>
          match parseImageLabel ⟨cs, raw.properties.getD none, raw.source.getD none,
              raw.version.getD none⟩ with
          | .error e => .error [e]
          | .ok model => .ok (model, warns)

/-- A single image within a well, as `WellImage` of `v04/well_types.py`. -/
structure WellImage where
  path : String
  acquisition : Option Int

/-- Errors raised by `WellMeta.get_acquisition_paths`. -/
inductive WellErr where
  | missingAcquisitionId

/-- Appending of a path under an acquisition key, the embedding of
`acquisition_dict[image.acquisition].append(image.path)` on a
`defaultdict(list)`: an existing key has the path appended to its list, a
new key is added at the end with a singleton list. -/
def addAcq : List (Int × List String) → Int → String → List (Int × List String)
  | [], k, p => [(k, [p])]
  | (k', ps) :: rest, k, p =>
      if k' = k then (k', ps ++ [p]) :: rest else (k', ps) :: addAcq rest k p

/-- Loop of `get_acquisition_paths` over the well images, threading the
mapping built so far and failing on the first image without an
acquisition id. -/
def getAcquisitionPathsAux (acc : List (Int × List String)) :
    List WellImage → Except WellErr (List (Int × List String))
  | [] => .ok acc
  | img :: rest =>
      match img.acquisition with
      | none => .error .missingAcquisitionId
      | some k => getAcquisitionPathsAux (addAcq acc k img.path) rest

/-- Embedding of `WellMeta.get_acquisition_paths` of `v04/well_types.py`:
the mapping from acquisition indices to the ordered list of paths sharing
them, failing with `ValueError` when any image lacks acquisition metadata. -/
def getAcquisitionPaths (images : List WellImage) :
    Except WellErr (List (Int × List String)) :=
  getAcquisitionPathsAux [] images

/-- Bind on an `Except` error short-circuits. -/
theorem exceptErrorBind {ε α β : Type} (e : ε) (f : α → Except ε β) :
    (Except.error e >>= f) = Except.error e := rfl

/-- Bind on an `Except` success applies the continuation. -/
theorem exceptOkBind {ε α β : Type} (a : α) (f : α → Except ε β) :
    (Except.ok a >>= f) = f a := rfl

/-- Success of the dataset check means the flattened tree holds an array of
the declared rank at the dataset's key. -/
theorem checkDataset_ok_iff (flat : List (String × Spec)) (n : Nat) (d : Dataset) :
    checkDataset flat n d = .ok () ↔
      ∃ shape, List.lookup ("/" ++ lstripSlash d.path) flat = some (.array shape) ∧
        shape.length = n := by
  unfold checkDataset
  cases h : List.lookup ("/" ++ lstripSlash d.path) flat with
  | none => simp
  | some s =>
      cases s with
      | array shape =>
          by_cases hl : shape.length = n
          · simp [hl]
          · simp [hl]
      | group ms => simp

/-- Success of the per-multiscale dataset loop means every dataset passed. -/
theorem checkDatasets_ok_mem {flat : List (String × Spec)} {n : Nat} {l : List Dataset}
    (h : checkDatasets flat n l = .ok ()) :
    ∀ d ∈ l, checkDataset flat n d = .ok () := by
  induction l with
  | nil => intro d hd; cases hd
  | cons d rest ih =>
      intro d' hd'
      simp only [checkDatasets] at h
      cases hc : checkDataset flat n d with
      | error e => rw [hc, exceptErrorBind] at h; simp at h
      | ok u =>
          obtain ⟨⟩ := u
          rw [hc, exceptOkBind] at h
          rcases List.mem_cons.mp hd' with rfl | hmem
          · exact hc
          · exact ih h d' hmem

/-- Success of the multiscale loop means every multiscale's loop passed. -/
theorem checkMultiscales_ok_mem {flat : List (String × Spec)} {l : List Multiscale}
    (h : checkMultiscales flat l = .ok ()) :
    ∀ m ∈ l, checkDatasets flat m.axes.length m.datasets = .ok () := by
  induction l with
  | nil => intro m hm; cases hm
  | cons m rest ih =>
      intro m' hm'
      simp only [checkMultiscales] at h
      cases hc : checkDatasets flat m.axes.length m.datasets with
      | error e => rw [hc, exceptErrorBind] at h; simp at h
      | ok u =>
          obtain ⟨⟩ := u
          rw [hc, exceptOkBind] at h
          rcases List.mem_cons.mp hm' with rfl | hmem
          · exact hc
          · exact ih h m' hmem

/-- When some dataset fails and every dataset either passes or fails with
the same error, the dataset loop returns that error. -/
theorem checkDatasets_error {flat : List (String × Spec)} {n : Nat} {l : List Dataset}
    {e : ImgErr}
    (hex : ∃ d ∈ l, checkDataset flat n d = .error e)
    (hall : ∀ d ∈ l, checkDataset flat n d = .ok () ∨ checkDataset flat n d = .error e) :
    checkDatasets flat n l = .error e := by
  induction l with
  | nil => rcases hex with ⟨d, hd, _⟩; cases hd
  | cons d rest ih =>
      simp only [checkDatasets]
      rcases hall d (List.mem_cons_self d rest) with hok | herr
      · rw [hok, exceptOkBind]
        apply ih
        · rcases hex with ⟨d', hd', he'⟩
          rcases List.mem_cons.mp hd' with rfl | hmem
          · rw [hok] at he'; simp at he'
          · exact ⟨d', hmem, he'⟩
        · intro d' hd'; exact hall d' (List.mem_cons_of_mem d hd')
      · rw [herr, exceptErrorBind]

/-- When some multiscale's dataset loop fails and every multiscale's loop
either passes or fails with the same error, the multiscale loop returns
that error. -/
theorem checkMultiscales_error {flat : List (String × Spec)} {l : List Multiscale}
    {e : ImgErr}
    (hex : ∃ m ∈ l, checkDatasets flat m.axes.length m.datasets = .error e)
    (hall : ∀ m ∈ l, checkDatasets flat m.axes.length m.datasets = .ok () ∨
      checkDatasets flat m.axes.length m.datasets = .error e) :
    checkMultiscales flat l = .error e := by
  induction l with
  | nil => rcases hex with ⟨m, hm, _⟩; cases hm
  | cons m rest ih =>
      simp only [checkMultiscales]
      rcases hall m (List.mem_cons_self m rest) with hok | herr
      · rw [hok, exceptOkBind]
        apply ih
        · rcases hex with ⟨m', hm', he'⟩
          rcases List.mem_cons.mp hm' with rfl | hmem
          · rw [hok] at he'; simp at he'
          · exact ⟨m', hmem, he'⟩
        · intro m' hm'; exact hall m' (List.mem_cons_of_mem m hm')
      · rw [herr, exceptErrorBind]

/-- A successfully constructed image is the input pair, and its members
passed the multiscale check. -/
theorem mkImage_ok_elim {attrs : ImageAttrs} {members : List (String × Spec)}
    {img : Image} (h : mkImage attrs members = .ok img) :
    img = ⟨attrs, members⟩ ∧
      checkMultiscales (toFlat members) attrs.multiscales = .ok () := by
  unfold mkImage checkArraysCompatible at h
  cases hc : checkMultiscales (toFlat members) attrs.multiscales with
  | error e => rw [hc] at h; simp at h
  | ok u =>
      obtain ⟨⟩ := u
      rw [hc] at h
      simp only at h
      exact ⟨(Except.ok.inj h).symm, rfl⟩

/-- A successfully resolved dataset entry comes from an array in the store
at the joined path, keyed by the slash-prefixed dataset path. -/
theorem resolveDataset_ok_elim {store : Store} {rootPath : String} {d : Dataset}
    {v : String × Spec} (h : resolveDataset store rootPath d = .ok v) :
    ∃ shape, List.lookup (rootPath ++ "/" ++ d.path) store = some (.array shape) ∧
      v = ("/" ++ d.path, .array shape) := by
  unfold resolveDataset at h
  cases hl : List.lookup (rootPath ++ "/" ++ d.path) store with
  | none => rw [hl] at h; simp at h
  | some s =>
      cases s with
      | array shape =>
          rw [hl] at h
          simp only at h
          exact ⟨shape, rfl, (Except.ok.inj h).symm⟩
      | group ms => rw [hl] at h; simp at h

/-- Resolution of a dataset whose joined path holds nothing fails with the
missing-array error naming that path. -/
theorem resolveDataset_missing {store : Store} {rootPath : String} {d : Dataset}
    (h : List.lookup (rootPath ++ "/" ++ d.path) store = none) :
    resolveDataset store rootPath d =
      .error (.zarrMissingArray (rootPath ++ "/" ++ d.path)) := by
  unfold resolveDataset
  rw [h]

/-- Resolution of a dataset whose joined path holds a group fails with the
wrong-node-kind error naming that path. -/
theorem resolveDataset_group {store : Store} {rootPath : String} {d : Dataset}
    {ms : List (String × Spec)}
    (h : List.lookup (rootPath ++ "/" ++ d.path) store = some (.group ms)) :
    resolveDataset store rootPath d =
      .error (.zarrGroupFound (rootPath ++ "/" ++ d.path)) := by
  unfold resolveDataset
  rw [h]

/-- Success of the per-multiscale resolution loop means every dataset
resolved. -/
theorem resolveDatasets_ok_mem {store : Store} {rootPath : String} {l : List Dataset}
    {vs : List (String × Spec)} (h : resolveDatasets store rootPath l = .ok vs) :
    ∀ d ∈ l, ∃ v, resolveDataset store rootPath d = .ok v := by
  induction l generalizing vs with
  | nil => intro d hd; cases hd
  | cons d rest ih =>
      intro d' hd'
      simp only [resolveDatasets] at h
      cases hc : resolveDataset store rootPath d with
      | error e => rw [hc, exceptErrorBind] at h; simp at h
      | ok v =>
          rw [hc, exceptOkBind] at h
          cases hr : resolveDatasets store rootPath rest with
          | error e => rw [hr, exceptErrorBind] at h; simp at h
          | ok es =>
              rcases List.mem_cons.mp hd' with rfl | hmem
              · exact ⟨v, hc⟩
              · exact ih hr d' hmem

/-- Every entry produced by the per-multiscale resolution loop is keyed by
the slash-prefixed path of one of its datasets. -/
theorem resolveDatasets_ok_keys {store : Store} {rootPath : String} {l : List Dataset}
    {vs : List (String × Spec)} (h : resolveDatasets store rootPath l = .ok vs) :
    ∀ p ∈ vs, ∃ d ∈ l, p.1 = "/" ++ d.path := by
  induction l generalizing vs with
  | nil =>
      simp only [resolveDatasets] at h
      intro p hp
      rw [← Except.ok.inj h] at hp
      cases hp
  | cons d rest ih =>
      intro p hp
      simp only [resolveDatasets] at h
      cases hc : resolveDataset store rootPath d with
      | error e => rw [hc, exceptErrorBind] at h; simp at h
      | ok v =>
          rw [hc, exceptOkBind] at h
          cases hr : resolveDatasets store rootPath rest with
          | error e => rw [hr, exceptErrorBind] at h; simp at h
          | ok es =>
              rw [hr, exceptOkBind] at h
              rw [← Except.ok.inj h] at hp
              rcases List.mem_cons.mp hp with rfl | hmem
              · rcases resolveDataset_ok_elim hc with ⟨shape, _, rfl⟩
                exact ⟨d, List.mem_cons_self d rest, rfl⟩
              · rcases ih hr p hmem with ⟨d', hd', hk⟩
                exact ⟨d', List.mem_cons_of_mem d hd', hk⟩

/-- When some dataset fails to resolve and every dataset either resolves or
fails with the same error, the resolution loop returns that error. -/
theorem resolveDatasets_error {store : Store} {rootPath : String} {l : List Dataset}
    {e : ImgErr}
    (hex : ∃ d ∈ l, resolveDataset store rootPath d = .error e)
    (hall : ∀ d ∈ l, (∃ v, resolveDataset store rootPath d = .ok v) ∨
      resolveDataset store rootPath d = .error e) :
    resolveDatasets store rootPath l = .error e := by
  induction l with
  | nil => rcases hex with ⟨d, hd, _⟩; cases hd
  | cons d rest ih =>
      simp only [resolveDatasets]
      rcases hall d (List.mem_cons_self d rest) with ⟨v, hok⟩ | herr
      · rw [hok, exceptOkBind]
        have hrest : resolveDatasets store rootPath rest = .error e := by
          apply ih
          · rcases hex with ⟨d', hd', he'⟩
            rcases List.mem_cons.mp hd' with rfl | hmem
            · rw [hok] at he'; simp at he'
            · exact ⟨d', hmem, he'⟩
          · intro d' hd'; exact hall d' (List.mem_cons_of_mem d hd')
        rw [hrest, exceptErrorBind]
      · rw [herr, exceptErrorBind]

/-- Success of the multiscale resolution loop means every multiscale's
datasets resolved. -/
theorem resolveMultiscales_ok_mem {store : Store} {rootPath : String}
    {l : List Multiscale} {vs : List (String × Spec)}
    (h : resolveMultiscales store rootPath l = .ok vs) :
    ∀ m ∈ l, ∃ es, resolveDatasets store rootPath m.datasets = .ok es := by
  induction l generalizing vs with
  | nil => intro m hm; cases hm
  | cons m rest ih =>
      intro m' hm'
      simp only [resolveMultiscales] at h
      cases hc : resolveDatasets store rootPath m.datasets with
      | error e => rw [hc, exceptErrorBind] at h; simp at h
      | ok es =>
          rw [hc, exceptOkBind] at h
          cases hr : resolveMultiscales store rootPath rest with
          | error e => rw [hr, exceptErrorBind] at h; simp at h
          | ok rs =>
              rcases List.mem_cons.mp hm' with rfl | hmem
              · exact ⟨es, hc⟩
              · exact ih hr m' hmem

/-- Every entry produced by the multiscale resolution loop is keyed by the
slash-prefixed path of a dataset of one of its multiscales. -/
theorem resolveMultiscales_ok_keys {store : Store} {rootPath : String}
    {l : List Multiscale} {vs : List (String × Spec)}
    (h : resolveMultiscales store rootPath l = .ok vs) :
    ∀ p ∈ vs, ∃ m ∈ l, ∃ d ∈ m.datasets, p.1 = "/" ++ d.path := by
  induction l generalizing vs with
  | nil =>
      simp only [resolveMultiscales] at h
      intro p hp
      rw [← Except.ok.inj h] at hp
      cases hp
  | cons m rest ih =>
      intro p hp
      simp only [resolveMultiscales] at h
      cases hc : resolveDatasets store rootPath m.datasets with
      | error e => rw [hc, exceptErrorBind] at h; simp at h
      | ok es =>
          rw [hc, exceptOkBind] at h
          cases hr : resolveMultiscales store rootPath rest with
          | error e => rw [hr, exceptErrorBind] at h; simp at h
          | ok rs =>
              rw [hr, exceptOkBind] at h
              rw [← Except.ok.inj h] at hp
              rcases List.mem_append.mp hp with hmem | hmem
              · rcases resolveDatasets_ok_keys hc p hmem with ⟨d, hd, hk⟩
                exact ⟨m, List.mem_cons_self m rest, d, hd, hk⟩
              · rcases ih hr p hmem with ⟨m', hm', d, hd, hk⟩
                exact ⟨m', List.mem_cons_of_mem m hm', d, hd, hk⟩

/-- When some multiscale's resolution fails and every multiscale's
resolution either succeeds or fails with the same error, the multiscale
resolution loop returns that error. -/
theorem resolveMultiscales_error {store : Store} {rootPath : String}
    {l : List Multiscale} {e : ImgErr}
    (hex : ∃ m ∈ l, resolveDatasets store rootPath m.datasets = .error e)
    (hall : ∀ m ∈ l, (∃ es, resolveDatasets store rootPath m.datasets = .ok es) ∨
      resolveDatasets store rootPath m.datasets = .error e) :
    resolveMultiscales store rootPath l = .error e := by
  induction l with
  | nil => rcases hex with ⟨m, hm, _⟩; cases hm
  | cons m rest ih =>
      simp only [resolveMultiscales]
      rcases hall m (List.mem_cons_self m rest) with ⟨es, hok⟩ | herr
      · rw [hok, exceptOkBind]
        have hrest : resolveMultiscales store rootPath rest = .error e := by
          apply ih
          · rcases hex with ⟨m', hm', he'⟩
            rcases List.mem_cons.mp hm' with rfl | hmem
            · rw [hok] at he'; simp at he'
            · exact ⟨m', hmem, he'⟩
          · intro m' hm'; exact hall m' (List.mem_cons_of_mem m hm')
        rw [hrest, exceptErrorBind]
      · rw [herr, exceptErrorBind]

/-- A successful `fromZarr` decomposes into successful dataset resolution,
successful labels lookup, and successful construction. -/
theorem fromZarr_ok_elim {store : Store} {rootPath : String} {attrs : ImageAttrs}
    {img : Image} (h : fromZarr store rootPath attrs = .ok img) :
    ∃ ds ls, resolveMultiscales store rootPath attrs.multiscales = .ok ds ∧
      resolveLabels store = .ok ls ∧
      mkImage attrs (fromFlat (ds ++ ls)) = .ok img := by
  unfold fromZarr at h
  cases h₁ : resolveMultiscales store rootPath attrs.multiscales with
  | error e => rw [h₁, exceptErrorBind] at h; simp at h
  | ok ds =>
      rw [h₁, exceptOkBind] at h
      cases h₂ : resolveLabels store with
      | error e => rw [h₂, exceptErrorBind] at h; simp at h
      | ok ls =>
          rw [h₂, exceptOkBind] at h
          exact ⟨ds, ls, rfl, rfl, h⟩

/-- A resolution failure propagates out of `fromZarr` unchanged. -/
theorem fromZarr_error_of_resolve {store : Store} {rootPath : String}
    {attrs : ImageAttrs} {e : ImgErr}
    (h : resolveMultiscales store rootPath attrs.multiscales = .error e) :
    fromZarr store rootPath attrs = .error e := by
  unfold fromZarr
  rw [h, exceptErrorBind]

/-- A successful `fromZarr` found an array in the store at every declared
dataset's joined path. -/
theorem fromZarr_ok_arrays {store : Store} {rootPath : String} {attrs : ImageAttrs}
    {img : Image} (h : fromZarr store rootPath attrs = .ok img) :
    ∀ m ∈ attrs.multiscales, ∀ d ∈ m.datasets,
      ∃ shape, List.lookup (rootPath ++ "/" ++ d.path) store = some (.array shape) := by
  intro m hm d hd
  rcases fromZarr_ok_elim h with ⟨ds, ls, h₁, _, _⟩
  rcases resolveMultiscales_ok_mem h₁ m hm with ⟨es, hes⟩
  rcases resolveDatasets_ok_mem hes d hd with ⟨v, hv⟩
  rcases resolveDataset_ok_elim hv with ⟨shape, hs, _⟩
  exact ⟨shape, hs⟩

/-- Lookup of the key just set finds the new value. -/
theorem lookup_setMember_self (ms : List (String × Spec)) (n : String) (v : Spec) :
    List.lookup n (setMember ms n v) = some v := by
  induction ms with
  | nil => simp [setMember, List.lookup_cons]
  | cons p rest ih =>
      obtain ⟨n', v'⟩ := p
      by_cases h : n' = n
      · subst h
        simp [setMember, List.lookup_cons]
      · simp only [setMember, if_neg h, List.lookup_cons,
          beq_false_of_ne (fun hc => h hc.symm)]
        exact ih

/-- Lookup of a different key is unaffected by a set. -/
theorem lookup_setMember_ne (ms : List (String × Spec)) {n₀ n : String} (v : Spec)
    (h : n₀ ≠ n) :
    List.lookup n₀ (setMember ms n v) = List.lookup n₀ ms := by
  induction ms with
  | nil => simp [setMember, List.lookup_cons, List.lookup_nil, beq_false_of_ne h]
  | cons p rest ih =>
      obtain ⟨n', v'⟩ := p
      by_cases hn : n' = n
      · subst hn
        simp [setMember, List.lookup_cons, beq_false_of_ne h]
      · simp only [setMember, if_neg hn, List.lookup_cons]
        cases hb : n₀ == n'
        · exact ih
        · rfl

/-- Insertion at a segment path whose first segment differs from `n` leaves
the binding of `n` unchanged. -/
theorem lookup_insertAt_ne (acc : List (String × Spec)) (segs : List String)
    (v : Spec) {n : String} (h : segs.head? ≠ some n) :
    List.lookup n (insertAt acc segs v) = List.lookup n acc := by
  match segs with
  | [] => rfl
  | [m] =>
      have hm : m ≠ n := fun hc => h (by rw [hc]; rfl)
      exact lookup_setMember_ne acc v (fun hc => hm hc.symm) |>.trans rfl
  | m :: s :: rest =>
      have hm : m ≠ n := fun hc => h (by rw [hc]; rfl)
      exact lookup_setMember_ne acc _ (fun hc => hm hc.symm) |>.trans rfl

/-- Folding flat entries none of whose keys start with segment `n` leaves
the binding of `n` unchanged. -/
theorem lookup_fromFlatAux (flat : List (String × Spec)) {n : String} :
    ∀ acc, (∀ p ∈ flat, (splitSegs p.1).head? ≠ some n) →
    List.lookup n (fromFlatAux acc flat) = List.lookup n acc := by
  induction flat with
  | nil => intro acc _; rfl
  | cons p rest ih =>
      intro acc hall
      obtain ⟨k, v⟩ := p
      simp only [fromFlatAux]
      rw [ih _ (fun q hq => hall q (List.mem_cons_of_mem _ hq))]
      exact lookup_insertAt_ne acc _ v (hall (k, v) (List.mem_cons_self _ _))

/-- When every dataset of a multiscale resolves, the resolution loop
succeeds. -/
theorem resolveDatasets_ok_of_all {store : Store} {rootPath : String}
    {l : List Dataset}
    (h : ∀ d ∈ l, ∃ v, resolveDataset store rootPath d = .ok v) :
    ∃ es, resolveDatasets store rootPath l = .ok es := by
  induction l with
  | nil => exact ⟨[], rfl⟩
  | cons d rest ih =>
      rcases h d (List.mem_cons_self d rest) with ⟨v, hv⟩
      rcases ih (fun d' hd' => h d' (List.mem_cons_of_mem d hd')) with ⟨es, hes⟩
      refine ⟨v :: es, ?_⟩
      simp only [resolveDatasets]
      rw [hv, exceptOkBind, hes, exceptOkBind]

/-- When every dataset passes the check, the dataset loop succeeds. -/
theorem checkDatasets_ok_of_all {flat : List (String × Spec)} {n : Nat}
    {l : List Dataset}
    (h : ∀ d ∈ l, checkDataset flat n d = .ok ()) :
    checkDatasets flat n l = .ok () := by
  induction l with
  | nil => rfl
  | cons d rest ih =>
      simp only [checkDatasets]
      rw [h d (List.mem_cons_self d rest), exceptOkBind]
      exact ih (fun d' hd' => h d' (List.mem_cons_of_mem d hd'))

/-- Folding an appended list of flat entries folds the pieces in order. -/
theorem fromFlatAux_append (xs ys : List (String × Spec)) :
    ∀ acc, fromFlatAux acc (xs ++ ys) = fromFlatAux (fromFlatAux acc xs) ys := by
  induction xs with
  | nil => intro acc; rfl
  | cons p rest ih =>
      intro acc
      obtain ⟨k, v⟩ := p
      simp only [List.cons_append, fromFlatAux]
      exact ih _

/-- C1: For every declared dataset in every multiscale, `Image.from_zarr`
computes the dataset's absolute path as the root group's path joined with
the dataset's path and opens exactly that path (success requires an array
at every such joined path, and only those paths are consulted for
datasets); when nothing exists at such a path (and every other declared
dataset resolves to an array) it fails with the missing-array error naming
that path; when a group exists there instead it fails with the distinct
wrong-node-kind error naming that path; and the two errors are distinct. -/
theorem image_fromZarr_dataset_path_resolution (store : Store) (rootPath : String)
    (attrs : ImageAttrs) :
    (∀ img, fromZarr store rootPath attrs = .ok img →
      ∀ m ∈ attrs.multiscales, ∀ d ∈ m.datasets,
        ∃ shape, List.lookup (rootPath ++ "/" ++ d.path) store = some (.array shape))
    ∧ (∀ p : String,
        (∃ m ∈ attrs.multiscales, ∃ d ∈ m.datasets, rootPath ++ "/" ++ d.path = p) →
        List.lookup p store = none →
        (∀ m ∈ attrs.multiscales, ∀ d ∈ m.datasets, rootPath ++ "/" ++ d.path = p ∨
          ∃ shape, List.lookup (rootPath ++ "/" ++ d.path) store = some (.array shape)) →
        fromZarr store rootPath attrs = .error (.zarrMissingArray p))
    ∧ (∀ (p : String) (gms : List (String × Spec)),
        (∃ m ∈ attrs.multiscales, ∃ d ∈ m.datasets, rootPath ++ "/" ++ d.path = p) →
        List.lookup p store = some (.group gms) →
        (∀ m ∈ attrs.multiscales, ∀ d ∈ m.datasets, rootPath ++ "/" ++ d.path = p ∨
          ∃ shape, List.lookup (rootPath ++ "/" ++ d.path) store = some (.array shape)) →
        fromZarr store rootPath attrs = .error (.zarrGroupFound p))
    ∧ (∀ p q : String, ImgErr.zarrMissingArray p ≠ ImgErr.zarrGroupFound q) := by
  refine ⟨?_, ?_, ?_, ?_⟩
  · intro img h m hm d hd
    exact fromZarr_ok_arrays h m hm d hd
  · rintro p ⟨m₀, hm₀, d₀, hd₀, hp₀⟩ habs hall
    apply fromZarr_error_of_resolve
    have herrD : ∀ m ∈ attrs.multiscales, ∀ d ∈ m.datasets,
        (∃ v, resolveDataset store rootPath d = .ok v) ∨
        resolveDataset store rootPath d = .error (.zarrMissingArray p) := by
      intro m hm d hd
      rcases hall m hm d hd with hp | ⟨shape, hs⟩
      · right
        rw [← hp]
        exact resolveDataset_missing (hp ▸ habs)
      · left
        refine ⟨("/" ++ d.path, .array shape), ?_⟩
        unfold resolveDataset
        rw [hs]
    apply resolveMultiscales_error
    · refine ⟨m₀, hm₀, ?_⟩
      apply resolveDatasets_error
      · refine ⟨d₀, hd₀, ?_⟩
        rw [← hp₀]
        exact resolveDataset_missing (hp₀ ▸ habs)
      · exact herrD m₀ hm₀
    · intro m hm
      by_cases hc : ∃ d ∈ m.datasets, resolveDataset store rootPath d =
          .error (.zarrMissingArray p)
      · exact Or.inr (resolveDatasets_error hc (herrD m hm))
      · left
        apply resolveDatasets_ok_of_all
        intro d hd
        rcases herrD m hm d hd with hok | he
        · exact hok
        · exact absurd ⟨d, hd, he⟩ hc
  · rintro p gms ⟨m₀, hm₀, d₀, hd₀, hp₀⟩ hgrp hall
    apply fromZarr_error_of_resolve
    have herrD : ∀ m ∈ attrs.multiscales, ∀ d ∈ m.datasets,
        (∃ v, resolveDataset store rootPath d = .ok v) ∨
        resolveDataset store rootPath d = .error (.zarrGroupFound p) := by
      intro m hm d hd
      rcases hall m hm d hd with hp | ⟨shape, hs⟩
      · right
        rw [← hp]
        exact resolveDataset_group (hp ▸ hgrp)
      · left
        refine ⟨("/" ++ d.path, .array shape), ?_⟩
        unfold resolveDataset
        rw [hs]
    apply resolveMultiscales_error
    · refine ⟨m₀, hm₀, ?_⟩
      apply resolveDatasets_error
      · refine ⟨d₀, hd₀, ?_⟩
        rw [← hp₀]
        exact resolveDataset_group (hp₀ ▸ hgrp)
      · exact herrD m₀ hm₀
    · intro m hm
      by_cases hc : ∃ d ∈ m.datasets, resolveDataset store rootPath d =
          .error (.zarrGroupFound p)
      · exact Or.inr (resolveDatasets_error hc (herrD m hm))
      · left
        apply resolveDatasets_ok_of_all
        intro d hd
        rcases herrD m hm d hd with hok | he
        · exact hok
        · exact absurd ⟨d, hd, he⟩ hc
  · intro p q h
    cases h

/-- Witness for C1: with an array at `root/0` but nothing at `root/1`, the
resolution of a multiscale declaring datasets `0` and `1` fails with the
missing-array error naming `root/1`. -/
theorem image_fromZarr_dataset_path_resolution_witness :
    fromZarr [("root/0", Spec.array [5, 5])] "root"
      ⟨[⟨[⟨"y", none, none⟩, ⟨"x", none, none⟩], [⟨"0"⟩, ⟨"1"⟩]⟩]⟩
      = .error (.zarrMissingArray "root/1") := by
  refine (image_fromZarr_dataset_path_resolution
      [("root/0", Spec.array [5, 5])] "root"
      ⟨[⟨[⟨"y", none, none⟩, ⟨"x", none, none⟩], [⟨"0"⟩, ⟨"1"⟩]⟩]⟩).2.1 "root/1"
      ⟨_, List.mem_singleton.mpr rfl, ⟨"1"⟩, by simp, rfl⟩ rfl ?_
  intro m hm d hd
  rw [List.mem_singleton] at hm
  subst hm
  rcases List.mem_cons.mp hd with rfl | hd'
  · exact Or.inr ⟨[5, 5], rfl⟩
  · rcases List.mem_singleton.mp hd' with rfl
    exact Or.inl rfl

/-- C2: Every successfully constructed `Image` is the validated input pair,
and satisfies the invariant that for every multiscale in its attributes and
every dataset of that multiscale, the flattened member tree holds at the
dataset's key an array node (not a group) whose rank equals the axis count
of the owning multiscale; the model validator re-runs this check on every
construction, so success of `mkImage` is exactly success of the check. -/
theorem image_constructed_rank_invariant {attrs : ImageAttrs}
    {members : List (String × Spec)} {img : Image}
    (h : mkImage attrs members = .ok img) :
    img = ⟨attrs, members⟩ ∧
    ∀ m ∈ img.attributes.multiscales, ∀ d ∈ m.datasets,
      ∃ shape,
        List.lookup ("/" ++ lstripSlash d.path) (toFlat img.members) =
          some (.array shape) ∧
        shape.length = m.axes.length := by
  obtain ⟨heq, hchk⟩ := mkImage_ok_elim h
  subst heq
  refine ⟨rfl, ?_⟩
  intro m hm d hd
  have hds := checkMultiscales_ok_mem hchk m hm
  have hd1 := checkDatasets_ok_mem hds d hd
  exact (checkDataset_ok_iff _ _ _).mp hd1

/-- Witness for C2: a concrete two-axis image whose single dataset `0`
resolves to a rank-2 array satisfies the invariant. -/
theorem image_constructed_rank_invariant_witness :
    (⟨⟨[⟨[⟨"y", none, none⟩, ⟨"x", none, none⟩], [⟨"0"⟩]⟩]⟩,
        [("0", Spec.array [4, 6])]⟩ : Image) =
      ⟨⟨[⟨[⟨"y", none, none⟩, ⟨"x", none, none⟩], [⟨"0"⟩]⟩]⟩,
        [("0", Spec.array [4, 6])]⟩ ∧
    ∀ m ∈ (Image.mk ⟨[⟨[⟨"y", none, none⟩, ⟨"x", none, none⟩], [⟨"0"⟩]⟩]⟩
        [("0", Spec.array [4, 6])]).attributes.multiscales, ∀ d ∈ m.datasets,
      ∃ shape,
        List.lookup ("/" ++ lstripSlash d.path)
          (toFlat (Image.mk ⟨[⟨[⟨"y", none, none⟩, ⟨"x", none, none⟩], [⟨"0"⟩]⟩]⟩
            [("0", Spec.array [4, 6])]).members) = some (.array shape) ∧
        shape.length = m.axes.length :=
  @image_constructed_rank_invariant
    ⟨[⟨[⟨"y", none, none⟩, ⟨"x", none, none⟩], [⟨"0"⟩]⟩]⟩
    [("0", Spec.array [4, 6])]
    ⟨⟨[⟨[⟨"y", none, none⟩, ⟨"x", none, none⟩], [⟨"0"⟩]⟩]⟩,
      [("0", Spec.array [4, 6])]⟩ rfl

/-- C3: When a dataset's key resolves in the flattened member tree to an
array whose rank `r` differs from the axis count `n` of its owning
multiscale (and every other dataset either passes the check or hits the
same mismatch), image construction fails with the rank-mismatch error
naming the dataset path, the declared axis count, and the observed array
rank; and that error is distinct from the missing-array error and from the
wrong-node-kind error. -/
theorem image_construction_rank_mismatch_error {attrs : ImageAttrs}
    {members : List (String × Spec)} {p : String} {n r : Nat}
    (hex : ∃ m ∈ attrs.multiscales, ∃ d ∈ m.datasets, d.path = p ∧
      m.axes.length = n ∧
      ∃ shape, List.lookup ("/" ++ lstripSlash d.path) (toFlat members) =
        some (.array shape) ∧ shape.length = r)
    (hne : r ≠ n)
    (hall : ∀ m ∈ attrs.multiscales, ∀ d ∈ m.datasets,
      checkDataset (toFlat members) m.axes.length d = .ok () ∨
      checkDataset (toFlat members) m.axes.length d = .error (.rankMismatch p n r)) :
    mkImage attrs members = .error (.rankMismatch p n r)
    ∧ (∀ (p' : String) (n' r' : Nat) (q : String),
        ImgErr.rankMismatch p' n' r' ≠ ImgErr.missingArrayInGroup q)
    ∧ (∀ (p' : String) (n' r' : Nat) (q : String),
        ImgErr.rankMismatch p' n' r' ≠ ImgErr.nodeIsGroup q) := by
  refine ⟨?_, ?_, ?_⟩
  · rcases hex with ⟨m₀, hm₀, d₀, hd₀, hdp, hax, shape, hlk, hsh⟩
    have hd₀err : checkDataset (toFlat members) m₀.axes.length d₀ =
        .error (.rankMismatch p n r) := by
      unfold checkDataset
      rw [hlk, hdp, hax]
      show (if shape.length ≠ n then
          Except.error (ImgErr.rankMismatch p n shape.length)
        else Except.ok ()) = Except.error (ImgErr.rankMismatch p n r)
      rw [hsh, if_pos hne]
    have hcm : checkMultiscales (toFlat members) attrs.multiscales =
        .error (.rankMismatch p n r) := by
      apply checkMultiscales_error
      · exact ⟨m₀, hm₀, checkDatasets_error ⟨d₀, hd₀, hd₀err⟩ (hall m₀ hm₀)⟩
      · intro m hm
        by_cases hc : ∃ d ∈ m.datasets,
            checkDataset (toFlat members) m.axes.length d =
              .error (.rankMismatch p n r)
        · exact Or.inr (checkDatasets_error hc (hall m hm))
        · left
          apply checkDatasets_ok_of_all
          intro d hd
          rcases hall m hm d hd with hok | he
          · exact hok
          · exact absurd ⟨d, hd, he⟩ hc
    unfold mkImage checkArraysCompatible
    rw [hcm]
  · intro p' n' r' q h
    cases h
  · intro p' n' r' q h
    cases h

/-- Witness for C3: a three-axis multiscale whose dataset `0` resolves to a
rank-2 array makes construction fail with the rank-mismatch error naming
path `0`, axis count 3, and rank 2. -/
theorem image_construction_rank_mismatch_error_witness :
    mkImage ⟨[⟨[⟨"z", none, none⟩, ⟨"y", none, none⟩, ⟨"x", none, none⟩],
        [⟨"0"⟩]⟩]⟩ [("0", Spec.array [4, 6])]
      = .error (.rankMismatch "0" 3 2) := by
  refine (@image_construction_rank_mismatch_error
    ⟨[⟨[⟨"z", none, none⟩, ⟨"y", none, none⟩, ⟨"x", none, none⟩], [⟨"0"⟩]⟩]⟩
    [("0", Spec.array [4, 6])] "0" 3 2 ?_ (by decide) ?_).1
  · exact ⟨_, List.mem_singleton.mpr rfl, ⟨"0"⟩, List.mem_singleton.mpr rfl,
      rfl, rfl, [4, 6], rfl, rfl⟩
  · intro m hm d hd
    rw [List.mem_singleton] at hm
    subst hm
    rcases List.mem_singleton.mp hd with rfl
    exact Or.inr rfl

/-- C4: When the store holds nothing at the path `labels` that
`Image.from_zarr` probes, the labels step succeeds contributing no member
(no error is raised for this case alone), and any image successfully
resolved from such a store has no `labels` member, so the `Image.labels`
accessor returns `None` (the side condition asks that no declared dataset
key itself starts with segment `labels`, which would alias the member). -/
theorem image_fromZarr_labels_absent (store : Store) (rootPath : String)
    (attrs : ImageAttrs) (habs : List.lookup "labels" store = none) :
    resolveLabels store = .ok [] ∧
    ∀ img, fromZarr store rootPath attrs = .ok img →
      (∀ m ∈ attrs.multiscales, ∀ d ∈ m.datasets,
        (splitSegs ("/" ++ d.path)).head? ≠ some "labels") →
      Image.labels img = none := by
  constructor
  · unfold resolveLabels
    rw [habs]
  · intro img hok hnl
    rcases fromZarr_ok_elim hok with ⟨ds, ls, h₁, h₂, h₃⟩
    have hls : ls = [] := by
      unfold resolveLabels at h₂
      rw [habs] at h₂
      exact (Except.ok.inj h₂).symm
    subst hls
    obtain ⟨heq, _⟩ := mkImage_ok_elim h₃
    subst heq
    show List.lookup "labels" (fromFlat (ds ++ [])) = none
    rw [List.append_nil]
    unfold fromFlat
    rw [lookup_fromFlatAux ds [] ?_]
    · rfl
    · intro q hq
      rcases resolveMultiscales_ok_keys h₁ q hq with ⟨m, hm, d, hd, hk⟩
      rw [hk]
      exact hnl m hm d hd

/-- Witness for C4: a store with only the dataset array resolves to an
image whose labels accessor returns `None`. -/
theorem image_fromZarr_labels_absent_witness :
    Image.labels ⟨⟨[⟨[⟨"y", none, none⟩, ⟨"x", none, none⟩], [⟨"0"⟩]⟩]⟩,
      [("0", Spec.array [5, 5])]⟩ = none :=
  (image_fromZarr_labels_absent [("root/0", Spec.array [5, 5])] "root"
      ⟨[⟨[⟨"y", none, none⟩, ⟨"x", none, none⟩], [⟨"0"⟩]⟩]⟩ rfl).2
    ⟨⟨[⟨[⟨"y", none, none⟩, ⟨"x", none, none⟩], [⟨"0"⟩]⟩]⟩,
      [("0", Spec.array [5, 5])]⟩ rfl (by decide)

/-- C9: A successfully resolved image takes its `labels` member from the
fixed store path `labels` — the store root, independent of the root group's
path — while every dataset array comes from the root path joined with the
dataset path (side condition as in C4: no dataset key starts with segment
`labels`). -/
theorem image_fromZarr_labels_fixed_store_path {store : Store} {rootPath : String}
    {attrs : ImageAttrs} {img : Image}
    (hok : fromZarr store rootPath attrs = .ok img)
    (hnl : ∀ m ∈ attrs.multiscales, ∀ d ∈ m.datasets,
      (splitSegs ("/" ++ d.path)).head? ≠ some "labels") :
    List.lookup "labels" img.members = labelsMemberOf store
    ∧ ∀ m ∈ attrs.multiscales, ∀ d ∈ m.datasets,
        ∃ shape, List.lookup (rootPath ++ "/" ++ d.path) store = some (.array shape) := by
  rcases fromZarr_ok_elim hok with ⟨ds, ls, h₁, h₂, h₃⟩
  obtain ⟨heq, _⟩ := mkImage_ok_elim h₃
  subst heq
  constructor
  · have hkeys : ∀ q ∈ ds, (splitSegs q.1).head? ≠ some "labels" := by
      intro q hq
      rcases resolveMultiscales_ok_keys h₁ q hq with ⟨m, hm, d, hd, hk⟩
      rw [hk]
      exact hnl m hm d hd
    unfold resolveLabels at h₂
    cases hsl : List.lookup "labels" store with
    | none =>
        rw [hsl] at h₂
        have hls : ls = [] := (Except.ok.inj h₂).symm
        subst hls
        show List.lookup "labels" (fromFlat (ds ++ [])) = labelsMemberOf store
        rw [List.append_nil]
        unfold fromFlat
        rw [lookup_fromFlatAux ds [] hkeys]
        unfold labelsMemberOf
        rw [hsl]
        rfl
    | some s =>
        cases s with
        | array shape => rw [hsl] at h₂; simp at h₂
        | group gms =>
            rw [hsl] at h₂
            have hls : ls = [("/labels", .group gms)] := (Except.ok.inj h₂).symm
            subst hls
            show List.lookup "labels" (fromFlat (ds ++ [("/labels", .group gms)])) =
              labelsMemberOf store
            unfold fromFlat
            rw [fromFlatAux_append]
            simp only [fromFlatAux]
            have hsegs : splitSegs "/labels" = ["labels"] := rfl
            rw [hsegs]
            simp only [insertAt]
            rw [lookup_setMember_self]
            unfold labelsMemberOf
            rw [hsl]
  · exact fun m hm d hd => fromZarr_ok_arrays hok m hm d hd

/-- Witness for C9: with the root group at `root`, a labels group at the
store root path `labels`, and a decoy group at `root/labels`, the resolved
image's labels member is the store-root group. -/
theorem image_fromZarr_labels_fixed_store_path_witness :
    List.lookup "labels"
      (Image.mk ⟨[⟨[⟨"y", none, none⟩, ⟨"x", none, none⟩], [⟨"0"⟩]⟩]⟩
        [("0", Spec.array [5, 5]), ("labels", Spec.group [("a", Spec.array [1])])]).members
      = labelsMemberOf [("root/0", Spec.array [5, 5]),
          ("labels", Spec.group [("a", Spec.array [1])]),
          ("root/labels", Spec.group [])] :=
  (@image_fromZarr_labels_fixed_store_path
    [("root/0", Spec.array [5, 5]),
      ("labels", Spec.group [("a", Spec.array [1])]),
      ("root/labels", Spec.group [])] "root"
    ⟨[⟨[⟨"y", none, none⟩, ⟨"x", none, none⟩], [⟨"0"⟩]⟩]⟩
    ⟨⟨[⟨[⟨"y", none, none⟩, ⟨"x", none, none⟩], [⟨"0"⟩]⟩]⟩,
      [("0", Spec.array [5, 5]), ("labels", Spec.group [("a", Spec.array [1])])]⟩
    rfl (by decide)).1

/-- Membership in the first-occurrence deduplication: an element appears
exactly when it occurs in the list and is not already seen. -/
theorem mem_dedupFirstAux (l : List Int) :
    ∀ (seen : List Int) (v : Int), v ∈ dedupFirstAux seen l ↔ v ∈ l ∧ v ∉ seen := by
  induction l with
  | nil => intro seen v; simp [dedupFirstAux]
  | cons x xs ih =>
      intro seen v
      by_cases hx : x ∈ seen
      · rw [show dedupFirstAux seen (x :: xs) = dedupFirstAux seen xs from by
          simp [dedupFirstAux, hx]]
        rw [ih seen v]
        simp only [List.mem_cons]
        constructor
        · rintro ⟨hv, hs⟩; exact ⟨Or.inr hv, hs⟩
        · rintro ⟨hv | hv, hs⟩
          · subst hv; exact absurd hx hs
          · exact ⟨hv, hs⟩
      · rw [show dedupFirstAux seen (x :: xs) = x :: dedupFirstAux (x :: seen) xs from by
          simp [dedupFirstAux, hx]]
        simp only [List.mem_cons, ih (x :: seen) v]
        constructor
        · rintro (rfl | ⟨hv, hs⟩)
          · exact ⟨Or.inl rfl, hx⟩
          · exact ⟨Or.inr hv, fun hseen => hs (Or.inr hseen)⟩
        · rintro ⟨rfl | hv, hs⟩
          · exact Or.inl rfl
          · by_cases hvx : v = x
            · exact Or.inl hvx
            · exact Or.inr ⟨hv, fun hmem => by
                rcases hmem with h | h
                · exact hvx h
                · exact hs h⟩

/-- Membership in the duplicated values: exactly the elements occurring
more than once in the list. -/
theorem mem_duplicateValues (l : List Int) (v : Int) :
    v ∈ duplicateValues l ↔ 1 < l.count v := by
  unfold duplicateValues
  rw [List.mem_filter]
  constructor
  · rintro ⟨_, hc⟩
    simpa using hc
  · intro hc
    refine ⟨(mem_dedupFirstAux l [] v).mpr ⟨?_, by simp⟩, by simpa⟩
    exact List.count_pos_iff.mp (by omega)

/-- The duplicated values are empty exactly when the list has no
duplicates. -/
theorem duplicateValues_eq_nil_iff (l : List Int) :
    duplicateValues l = [] ↔ l.Nodup := by
  constructor
  · intro h
    rw [List.nodup_iff_count_le_one]
    intro a
    by_contra hc
    push_neg at hc
    have hmem := (mem_duplicateValues l a).mpr hc
    rw [h] at hmem
    cases hmem
  · intro h
    by_contra hne
    rcases List.exists_mem_of_ne_nil _ hne with ⟨v, hv⟩
    have h1 := (mem_duplicateValues l v).mp hv
    have h2 := List.nodup_iff_count_le_one.mp h v
    omega

/-- Boolean set equality of integer lists agrees with propositional
bidirectional membership. -/
theorem setEqInt_iff (a b : List Int) :
    setEqInt a b = true ↔ ∀ v, v ∈ a ↔ v ∈ b := by
  unfold setEqInt
  rw [Bool.and_eq_true, List.all_eq_true, List.all_eq_true]
  constructor
  · rintro ⟨h1, h2⟩ v
    constructor
    · intro hv; simpa using h1 v hv
    · intro hv; simpa using h2 v hv
  · intro h
    constructor
    · intro v hv; simpa using (h v).mp hv
    · intro v hv; simpa using (h v).mpr hv

/-- C8: With a present colors collection, the colors validator passes when
all label values are pairwise distinct, and fails when any label value is
duplicated, with an error reporting exactly the duplicated label values. -/
theorem imagelabel_colors_duplicate_check (cs : List Color) :
    ((cs.map (fun c => c.label_value)).Nodup →
      parseColors (some cs) = .ok (some cs, []))
    ∧ (¬ (cs.map (fun c => c.label_value)).Nodup →
      parseColors (some cs) = .error (.duplicateLabelValues
        (duplicateValues (cs.map (fun c => c.label_value))))
      ∧ duplicateValues (cs.map (fun c => c.label_value)) ≠ []
      ∧ ∀ v, v ∈ duplicateValues (cs.map (fun c => c.label_value)) ↔
          1 < (cs.map (fun c => c.label_value)).count v) := by
  constructor
  · intro h
    have hnil := (duplicateValues_eq_nil_iff (cs.map (fun c => c.label_value))).mpr h
    unfold parseColors
    show (if 0 < (duplicateValues (cs.map (fun c => c.label_value))).length then
        Except.error (LabelErr.duplicateLabelValues
          (duplicateValues (cs.map (fun c => c.label_value))))
      else Except.ok (some cs, [])) = Except.ok (some cs, [])
    rw [hnil]
    rfl
  · intro h
    have hne : duplicateValues (cs.map (fun c => c.label_value)) ≠ [] :=
      fun hnil => h ((duplicateValues_eq_nil_iff _).mp hnil)
    refine ⟨?_, hne, fun v => mem_duplicateValues _ v⟩
    unfold parseColors
    show (if 0 < (duplicateValues (cs.map (fun c => c.label_value))).length then
        Except.error (LabelErr.duplicateLabelValues
          (duplicateValues (cs.map (fun c => c.label_value))))
      else Except.ok (some cs, [])) = Except.error (LabelErr.duplicateLabelValues
        (duplicateValues (cs.map (fun c => c.label_value))))
    rw [if_pos (List.length_pos.mpr hne)]

/-- Witness for C8: colors with label values `1, 1, 2` fail with the
duplicate error reporting `1`. -/
theorem imagelabel_colors_duplicate_check_witness :
    parseColors (some [⟨1, none⟩, ⟨1, none⟩, ⟨2, none⟩]) =
      .error (.duplicateLabelValues [1]) :=
  ((imagelabel_colors_duplicate_check [⟨1, none⟩, ⟨1, none⟩, ⟨2, none⟩]).2
    (by decide)).1

/-- C7: An `ImageLabel` whose colors collection is `None` always validates
successfully, with the advisory warning emitted alongside, whatever the
other fields hold; the absence of colors alone never causes a hard
failure. -/
theorem imagelabel_colors_absent_warning (properties : Option (List Property))
    (source : Option Source) (version : Option String) :
    mkImageLabel none properties source version =
      .ok (⟨none, properties, source, version⟩, [colorsNoneWarning]) := by
  cases properties <;> rfl

/-- C5: With both collections present, the key-set check fails exactly when
the set of label values in colors differs from the set in properties, the
failure reporting the property label values and the color label values; and
when either collection is absent the check passes without applying. -/
theorem imagelabel_keyset_agreement (model : ImageLabel) :
    (∀ cs ps, model.colors = some cs → model.properties = some ps →
      (((∃ e, parseImageLabel model = .error e) ↔
        ¬ ∀ v : Int, v ∈ cs.map (fun c => c.label_value) ↔
          v ∈ ps.map (fun p => p.label_value))
      ∧ (parseImageLabel model ≠ .ok model →
          parseImageLabel model = .error (.inconsistentLabelValues
            (ps.map (fun p => p.label_value)) (cs.map (fun c => c.label_value))))))
    ∧ ((model.colors = none ∨ model.properties = none) →
        parseImageLabel model = .ok model) := by
  constructor
  · intro cs ps hc hp
    have hred : parseImageLabel model =
        if setEqInt (cs.map (fun c => c.label_value)) (ps.map (fun p => p.label_value))
        then .ok model
        else .error (.inconsistentLabelValues
          (ps.map (fun p => p.label_value)) (cs.map (fun c => c.label_value))) := by
      unfold parseImageLabel
      rw [hc, hp]
    by_cases hset : setEqInt (cs.map (fun c => c.label_value))
        (ps.map (fun p => p.label_value)) = true
    · have hok : parseImageLabel model = .ok model := by
        rw [hred, if_pos hset]
      constructor
      · constructor
        · rintro ⟨e, he⟩
          rw [hok] at he
          cases he
        · intro hne
          exact absurd ((setEqInt_iff _ _).mp hset) hne
      · intro hne
        exact absurd hok hne
    · have herr : parseImageLabel model = .error (.inconsistentLabelValues
          (ps.map (fun p => p.label_value)) (cs.map (fun c => c.label_value))) := by
        rw [hred, if_neg hset]
      constructor
      · constructor
        · intro _ hall
          exact hset ((setEqInt_iff _ _).mpr hall)
        · intro _
          exact ⟨_, herr⟩
      · intro _
        exact herr
  · rintro (hc | hp)
    · unfold parseImageLabel
      rw [hc]
    · unfold parseImageLabel
      rw [hp]
      cases hcc : model.colors <;> rfl

/-- Witness for C5: colors `1, 2, 3` against properties `1, 2` fail with
the key-set mismatch error reporting both collections of label values. -/
theorem imagelabel_keyset_agreement_witness :
    parseImageLabel ⟨some [⟨1, none⟩, ⟨2, none⟩, ⟨3, none⟩], some [⟨1⟩, ⟨2⟩],
        none, some "0.4"⟩
      = .error (.inconsistentLabelValues [1, 2] [1, 2, 3]) := by
  refine ((imagelabel_keyset_agreement
      ⟨some [⟨1, none⟩, ⟨2, none⟩, ⟨3, none⟩], some [⟨1⟩, ⟨2⟩], none, some "0.4"⟩).1
      [⟨1, none⟩, ⟨2, none⟩, ⟨3, none⟩] [⟨1⟩, ⟨2⟩] rfl rfl).2 ?_
  intro hok
  rw [show parseImageLabel ⟨some [⟨1, none⟩, ⟨2, none⟩, ⟨3, none⟩], some [⟨1⟩, ⟨2⟩],
        none, some "0.4"⟩
      = .error (.inconsistentLabelValues [1, 2] [1, 2, 3]) from rfl] at hok
  cases hok

/-- C10: An `ImageLabel` constructed without the `version` key fails
validation with the missing-field error among the reported field errors
(the field is required), while a supplied `None` or `"0.4"` value passes
the version field's own validation. -/
theorem imagelabel_version_required (raw : RawImageLabel)
    (h : raw.version = none) :
    (∃ errs, parseRawImageLabel raw = .error errs ∧
      LabelErr.missingField "version" ∈ errs)
    ∧ (∀ v : Option (Option String), v = some none ∨ v = some (some "0.4") →
        versionFieldErrs v = []) := by
  constructor
  · unfold parseRawImageLabel
    rw [h]
    show ∃ errs, (match parseColors (raw.colors.getD none) with
      | .error e => Except.error (e :: versionFieldErrs none)
      | .ok (cs, warns) =>
          match versionFieldErrs none with
          | e :: rest => Except.error (e :: rest)
          | [] => (match parseImageLabel ⟨cs, raw.properties.getD none,
              raw.source.getD none, none⟩ with
            | .error e => Except.error [e]
            | .ok model => Except.ok (model, warns))) = Except.error errs ∧
      LabelErr.missingField "version" ∈ errs
    cases hpc : parseColors (raw.colors.getD none) with
    | error e =>
        exact ⟨e :: versionFieldErrs none, rfl, by
          show LabelErr.missingField "version" ∈ e :: [LabelErr.missingField "version"]
          exact List.mem_cons_of_mem e (List.mem_singleton.mpr rfl)⟩
    | ok pair =>
        obtain ⟨cs, warns⟩ := pair
        exact ⟨versionFieldErrs none, rfl, List.mem_singleton.mpr rfl⟩
  · rintro v (rfl | rfl) <;> rfl

/-- Witness for C10: raw keyword arguments supplying no field at all fail
with the missing `version` field reported, while explicit `None` and
`"0.4"` version values pass the field check. -/
theorem imagelabel_version_required_witness :
    (∃ errs, parseRawImageLabel ⟨none, none, none, none⟩ = .error errs ∧
      LabelErr.missingField "version" ∈ errs)
    ∧ (∀ v : Option (Option String), v = some none ∨ v = some (some "0.4") →
        versionFieldErrs v = []) :=
  imagelabel_version_required ⟨none, none, none, none⟩ rfl

/-- Paths of the images carrying acquisition id `k`, in declaration
order. -/
def pathsFor (k : Int) (l : List WellImage) : List String :=
  (l.filter (fun i => i.acquisition == some k)).map (fun i => i.path)

/-- Lookup after appending a path under a key: the touched key gains the
path at the end of its list, other keys are unchanged. -/
theorem lookup_addAcq (d : List (Int × List String)) (k k' : Int) (p : String) :
    List.lookup k' (addAcq d k p) =
      if k' = k then some (((List.lookup k' d).getD []) ++ [p])
      else List.lookup k' d := by
  induction d with
  | nil =>
      by_cases hk : k' = k
      · subst hk
        simp [addAcq, List.lookup_cons]
      · simp [addAcq, List.lookup_cons, beq_false_of_ne hk, hk]
  | cons q rest ih =>
      obtain ⟨k₀, ps₀⟩ := q
      by_cases h0 : k₀ = k
      · subst h0
        simp only [addAcq, if_pos rfl]
        by_cases hk : k' = k₀
        · subst hk
          simp [List.lookup_cons]
        · simp [List.lookup_cons, beq_false_of_ne hk, hk]
      · simp only [addAcq, if_neg h0]
        by_cases hk0 : k' = k₀
        · subst hk0
          have hk : k' ≠ k := fun hc => h0 (hc ▸ rfl)
          simp [List.lookup_cons, hk]
        · simp only [List.lookup_cons, beq_false_of_ne hk0]
          exact ih

/-- Invariant of the grouping loop: on success, the final mapping at any
key is the accumulator's list extended by the paths of the remaining images
carrying that key. -/
theorem getAcquisitionPathsAux_ok_lookup :
    ∀ (l : List WellImage) (acc : List (Int × List String))
      (d : List (Int × List String)),
    getAcquisitionPathsAux acc l = .ok d →
    ∀ k : Int, List.lookup k d =
      match List.lookup k acc with
      | none => if pathsFor k l = [] then none else some (pathsFor k l)
      | some a => some (a ++ pathsFor k l) := by
  intro l
  induction l with
  | nil =>
      intro acc d h k
      have hd : d = acc := (Except.ok.inj h).symm
      subst hd
      cases hacc : List.lookup k d with
      | none => simp [pathsFor]
      | some a => simp [pathsFor]
  | cons i rest ih =>
      intro acc d h k
      simp only [getAcquisitionPathsAux] at h
      cases hacq : i.acquisition with
      | none => rw [hacq] at h; simp at h
      | some k₀ =>
          rw [hacq] at h
          have hstep := ih (addAcq acc k₀ i.path) d h k
          rw [lookup_addAcq] at hstep
          by_cases hk : k = k₀
          · subst hk
            rw [if_pos rfl] at hstep
            have hpf : pathsFor k (i :: rest) = i.path :: pathsFor k rest := by
              simp [pathsFor, List.filter_cons, hacq]
            rw [hpf]
            cases hacc : List.lookup k acc with
            | none =>
                rw [hacc] at hstep
                simpa using hstep
            | some a =>
                rw [hacc] at hstep
                simpa [List.append_assoc] using hstep
          · rw [if_neg hk] at hstep
            have hpf : pathsFor k (i :: rest) = pathsFor k rest := by
              have : (some k₀ == some k) = false := by
                simp [beq_false_of_ne (fun hc : k₀ = k => hk hc.symm)]
              simp [pathsFor, List.filter_cons, hacq, this]
            rw [hpf]
            exact hstep

/-- An image without an acquisition id anywhere in the remaining list makes
the grouping loop fail, whatever the accumulator. -/
theorem getAcquisitionPathsAux_error :
    ∀ (l : List WellImage) (acc : List (Int × List String)),
    (∃ i ∈ l, i.acquisition = none) →
    getAcquisitionPathsAux acc l = .error .missingAcquisitionId := by
  intro l
  induction l with
  | nil =>
      rintro acc ⟨i, hi, _⟩
      cases hi
  | cons j rest ih =>
      rintro acc ⟨i, hi, hn⟩
      simp only [getAcquisitionPathsAux]
      cases hacq : j.acquisition with
      | none => rfl
      | some k =>
          rcases List.mem_cons.mp hi with rfl | hmem
          · rw [hacq] at hn; cases hn
          · exact ih _ ⟨i, hmem, hn⟩

/-- C6: Applied to an ordered list of well images, the acquisition grouping
returns, on success, the mapping whose entry at each acquisition id is the
ordered list of paths of exactly the images carrying that id; and whenever
any image's acquisition id is absent, the whole operation fails with the
missing-acquisition error rather than dropping the entry. -/
theorem wellmeta_get_acquisition_paths (images : List WellImage) :
    (∀ d, getAcquisitionPaths images = .ok d →
      ∀ k : Int, List.lookup k d =
        if pathsFor k images = [] then none else some (pathsFor k images))
    ∧ ((∃ i ∈ images, i.acquisition = none) →
      getAcquisitionPaths images = .error .missingAcquisitionId) := by
  constructor
  · intro d h k
    have hstep := getAcquisitionPathsAux_ok_lookup images [] d h k
    simpa using hstep
  · intro hex
    exact getAcquisitionPathsAux_error images [] hex

/-- Witness for C6: grouping `("0", 1), ("1", 1), ("2", 2)` yields the
mapping sending `1` to `["0", "1"]`; applied at acquisition id `1` the
theorem evaluates on the computed mapping `[(1, ["0", "1"]), (2, ["2"])]`. -/
theorem wellmeta_get_acquisition_paths_witness :
    List.lookup (1 : Int) [((1 : Int), ["0", "1"]), (2, ["2"])] =
      if pathsFor 1 [⟨"0", some 1⟩, ⟨"1", some 1⟩, ⟨"2", some 2⟩] = [] then none
      else some (pathsFor 1 [⟨"0", some 1⟩, ⟨"1", some 1⟩, ⟨"2", some 2⟩]) :=
  (wellmeta_get_acquisition_paths [⟨"0", some 1⟩, ⟨"1", some 1⟩, ⟨"2", some 2⟩]).1
    [(1, ["0", "1"]), (2, ["2"])] rfl 1
